import Mathlib

/-!
Verification of the actor / genetic-actor module (`actor.py`).

The module defines decision-making actors (a linear perceptron and a
feed-forward neural network with logistic squashing), plus genetic variants
exposing a genome codec: `get_genome` flattens the weight matrices into a
vector rescaled to [0,1], and `from_genome` reconstructs an actor of the same
shape from such a vector.

Modelling conventions:
- numpy float arrays are modelled as `List ℚ` (1-D) and `List (List ℚ)`
  (2-D, rows in row-major order); the network evaluator, which applies the
  logistic function, is modelled over `ℝ`.
- `np.reshape` to a 2-D shape is modelled by `reshape2`, returning `none`
  exactly when numpy would raise (element-count mismatch).
- Python's `reduce` without an initial value (helper `product`) is undefined
  on an empty list, hence `Option`.
- random weight draws (`np.random.random(shape)*2 - 1`) are modelled by a
  caller-supplied entry function `w : ℕ → ℕ → ℚ` of raw draws in [0,1).
- reference/aliasing behaviour of numpy arrays (needed for the frame
  properties of `react_to` and `from_genome`) is modelled by a small store
  of cells addressed by natural-number references; `arr.copy()` and fresh
  numpy results allocate, in-place `-=`/`/=` update a cell.
-/

/-- `product(l) = reduce(lambda x,y: x*y, l)`: `reduce` with no initial value
raises on an empty sequence, hence `none` on `[]`; otherwise it folds the
product from the first element leftwards. -/
def product {α : Type} [Mul α] : List α → Option α
  | [] => none
  | x :: xs => some (xs.foldl (fun a b => a * b) x)

/-- numpy dot product of two 1-D vectors. -/
def dot {α : Type} [LinearOrderedField α] (u v : List α) : α :=
  (List.zipWith (fun a b => a * b) u v).sum

/-- `M.dot(v)` for a 2-D matrix (list of rows) and a 1-D vector. -/
def matVec {α : Type} [LinearOrderedField α] (m : List (List α)) (v : List α) : List α :=
  m.map (fun row => dot row v)

/-- The scan `for j,x in enumerate(outputs): if x > outputs[i]: i = j`,
tracking the pair (value at the current best index, current best index);
`j` is the position of the head of the remaining list in the full vector.
`outputs` is never written during the scan, so `outputs[i]` is exactly the
tracked value. -/
def argmaxScan {α : Type} [LinearOrder α] : List α → α × ℕ → ℕ → α × ℕ
  | [], acc, _ => acc
  | x :: xs, (bv, b), j => if bv < x then argmaxScan xs (x, j) (j + 1) else argmaxScan xs (bv, b) (j + 1)

/-- The argmax loop of `react_to`: start with `i = 0` and replace `i` only on
a strictly greater value.  On an empty vector the loop body never runs and the
result is `0`. -/
def argmaxFirst {α : Type} [LinearOrder α] : List α → ℕ
  | [] => 0
  | x :: xs => (argmaxScan xs (x, 0) 1).2

/-- `self._obs_range = high - low`, computed at construction. -/
def obsRange {α : Type} [LinearOrderedField α] (low high : List α) : List α :=
  List.zipWith (fun a b => a - b) high low

/-- The normalization steps of `react_to`:
`obs = observation.copy(); obs -= low; obs /= range` (elementwise). -/
def normalizeObs {α : Type} [LinearOrderedField α] (low range obs : List α) : List α :=
  List.zipWith (fun a b => a / b) (List.zipWith (fun a b => a - b) obs low) range

namespace PerceptronActor

/-- `self._perceptron_matrix = np.random.random((n_act, n_obs))*2 - 1`,
with `w i j` the raw draw in [0,1) for entry (i, j). -/
def mkMatrix (n_act n_obs : ℕ) (w : ℕ → ℕ → ℚ) : List (List ℚ) :=
  (List.range n_act).map (fun i => (List.range n_obs).map (fun j => w i j * 2 - 1))

/-- `PerceptronActor.react_to` after flattening: normalize the observation,
apply the single matrix, and take the first-wins argmax. -/
def react_to {α : Type} [LinearOrderedField α] (low range : List α) (m : List (List α)) (obs : List α) : ℕ :=
  argmaxFirst (matVec m (normalizeObs low range obs))

end PerceptronActor

/-- `σ(x) = 1/(1 + exp(-x))`, the logistic squashing applied by the network. -/
noncomputable def sigmoid (x : ℝ) : ℝ :=
  1 / (1 + Real.exp (-x))

namespace NeuralNetActor

/-- Matrix shapes of the constructed network: matrices for consecutive size
pairs of `zip([n_obs] + hidden, hidden + [n_act])`, each of shape
(out_size, in_size). -/
def layerDims (n_obs n_act : ℕ) (hidden : List ℕ) : List (ℕ × ℕ) :=
  (List.zip (n_obs :: hidden) (hidden ++ [n_act])).map (fun p => (p.2, p.1))

/-- The constructed layer list: one fresh random matrix per dimension pair,
`w k i j` being the raw draw in [0,1) for entry (i, j) of layer k. -/
def mkLayers (n_obs n_act : ℕ) (hidden : List ℕ) (w : ℕ → ℕ → ℕ → ℚ) : List (List (List ℚ)) :=
  (layerDims n_obs n_act hidden).enum.map
    (fun kd => (List.range kd.2.1).map (fun i => (List.range kd.2.2).map (fun j => w kd.1 i j * 2 - 1)))

/-- The layer loop of `NeuralNetActor.react_to`:
`current_vector = layer.dot(current_vector); current_vector = 1/(1+exp(-current_vector))`
for each layer in order. -/
noncomputable def evalLayers (layers : List (List (List ℝ))) (v : List ℝ) : List ℝ :=
  layers.foldl (fun cv layer => (matVec layer cv).map sigmoid) v

/-- `NeuralNetActor.react_to` after flattening: normalize, run every layer
through matrix product plus logistic squashing, then first-wins argmax. -/
noncomputable def react_to (low range : List ℝ) (layers : List (List (List ℝ))) (obs : List ℝ) : ℕ :=
  argmaxFirst (evalLayers layers (normalizeObs low range obs))

end NeuralNetActor

/-- `arr.shape` of a 2-D numpy array modelled as a list of rows (all rows of
one array have equal length, the second component reads the first row). -/
def mShape (m : List (List ℚ)) : ℕ × ℕ :=
  (m.length, (m.headD []).length)

/-- `np.reshape(v, (r, c))`: defined exactly when the element count matches,
splitting the flat vector into `r` consecutive rows of `c` elements. -/
def reshape2 (r c : ℕ) (v : List ℚ) : Option (List (List ℚ)) :=
  if v.length = r * c then some ((List.range r).map (fun i => (v.drop (i * c)).take c)) else none

/-- A 2-D array is well-formed when every row has the same given length. -/
def Uniform (m : List (List ℚ)) (c : ℕ) : Prop :=
  ∀ row ∈ m, row.length = c

namespace GeneticPerceptronActor

/-- `get_genome`: `(reshape(matrix.copy(), n_obs*n_act) + 1) / 2` — row-major
flatten of the single matrix, then the affine rescale to [0,1]. -/
def get_genome (m : List (List ℚ)) : List ℚ :=
  m.flatten.map (fun w => (w + 1) / 2)

/-- `from_genome`, matrix part: the fresh actor's matrix is replaced by
`2 * reshape(genome.copy(), self._perceptron_matrix.shape) - 1`. -/
def from_genome (m : List (List ℚ)) (genome : List ℚ) : Option (List (List ℚ)) :=
  (reshape2 (mShape m).1 (mShape m).2 genome).map
    (fun mm => mm.map (fun row => row.map (fun x => 2 * x - 1)))

end GeneticPerceptronActor

namespace GeneticNNActor

/-- `get_genome`: concatenate `reshape(layer.copy(), product(layer.shape))`
over the layers in order, then `(genome + 1)/2`. -/
def get_genome (layers : List (List (List ℚ))) : List ℚ :=
  (layers.foldl (fun g l => g ++ l.flatten) []).map (fun w => (w + 1) / 2)

/-- The decode loop of `from_genome`: walk the template layers keeping the
running offset `start`; each layer consumes `layer_size = product(layer.shape)`
elements `genome[start : start+layer_size]` (Python slices truncate) and
reshapes them to the layer's shape (raising, i.e. `none`, on a size
mismatch). -/
def decodeLayers (g : List ℚ) : List (List (List ℚ)) → ℕ → Option (List (List (List ℚ)))
  | [], _ => some []
  | l :: ls, start =>
    let sz := (product [(mShape l).1, (mShape l).2]).getD 0
    (reshape2 (mShape l).1 (mShape l).2 ((g.drop start).take sz)).bind
      (fun nl => (decodeLayers g ls (start + sz)).map (fun rest => nl :: rest))

/-- `from_genome`, layers part: `genome = genome.copy()*2 - 1`, then the
decode loop starting at offset 0 against the template's layers. -/
def from_genome (layers : List (List (List ℚ))) (genome : List ℚ) : Option (List (List (List ℚ))) :=
  decodeLayers (genome.map (fun x => 2 * x - 1)) layers 0

end GeneticNNActor

/-- A store of numpy arrays addressed by references, used to model the
aliasing/mutation structure of the code: `copy()` and fresh numpy results
allocate a new cell, the in-place operators update a cell. -/
structure Store (β : Type) where
  cells : List β

namespace Store

/-- Read the array behind a reference. -/
def get {β : Type} [Inhabited β] (s : Store β) (r : ℕ) : β :=
  s.cells.getD r default

/-- Overwrite the array behind a reference (in-place `-=`, `/=`, or a field
rebinding in our one-cell-per-actor model). -/
def set {β : Type} (s : Store β) (r : ℕ) (v : β) : Store β :=
  ⟨s.cells.set r v⟩

/-- Allocate a fresh array (`copy()`, or a fresh numpy result). -/
def alloc {β : Type} (s : Store β) (v : β) : ℕ × Store β :=
  (s.cells.length, ⟨s.cells ++ [v]⟩)

/-- Allocate a list of fresh arrays in order. -/
def allocList {β : Type} : Store β → List β → List ℕ × Store β
  | s, [] => ([], s)
  | s, v :: vs =>
    let p := s.alloc v
    let q := allocList p.2 vs
    (p.1 :: q.1, q.2)

end Store

/-- `PerceptronActor.react_to` with the observation held in a store, statement
by statement: `obs = observation.copy()` allocates, `obs -= low` and
`obs /= range` mutate the copy in place, `np.reshape(obs, n_obs).copy()`
allocates again (reshape of a flat vector is a view), and the dot product and
argmax only read. -/
def PerceptronActor.react_to_store {α : Type} [LinearOrderedField α] (low range : List α)
    (m : List (List α)) (s : Store (List α)) (obsRef : ℕ) : ℕ × Store (List α) :=
  let p := s.alloc (s.get obsRef)
  let s2 := p.2.set p.1 (List.zipWith (fun a b => a - b) (p.2.get p.1) low)
  let s3 := s2.set p.1 (List.zipWith (fun a b => a / b) (s2.get p.1) range)
  let q := s3.alloc (s3.get p.1)
  (argmaxFirst (matVec m (q.2.get q.1)), q.2)

/-- `NeuralNetActor.react_to` with the observation held in a store:
`observation.copy()` allocates, the in-place normalization mutates the copy,
`np.reshape(obs, n_obs)` is a view of the copy, and every `layer.dot` result
(and its squashing) is a fresh pure value. -/
noncomputable def NeuralNetActor.react_to_store (low range : List ℝ)
    (layers : List (List (List ℝ))) (s : Store (List ℝ)) (obsRef : ℕ) : ℕ × Store (List ℝ) :=
  let p := s.alloc (s.get obsRef)
  let s2 := p.2.set p.1 (List.zipWith (fun a b => a - b) (p.2.get p.1) low)
  let s3 := s2.set p.1 (List.zipWith (fun a b => a / b) (s2.get p.1) range)
  (argmaxFirst (NeuralNetActor.evalLayers layers (s3.get p.1)), s3)

/-- `GeneticPerceptronActor.from_genome` with matrices held in a store:
`pa = GeneticPerceptronActor(...)` allocates the fresh actor's random matrix
(`fresh`), then `pa._perceptron_matrix = 2*reshape(genome.copy(), shape) - 1`
rebinds `pa`'s cell to the decoded matrix, the shape read from `self`'s
matrix.  `none` exactly when the reshape raises. -/
def GeneticPerceptronActor.from_genome_store (s : Store (List (List ℚ))) (selfRef : ℕ)
    (genome : List ℚ) (fresh : List (List ℚ)) : Option (ℕ × Store (List (List ℚ))) :=
  let p := s.alloc fresh
  (reshape2 (mShape (p.2.get selfRef)).1 (mShape (p.2.get selfRef)).2 genome).map
    (fun mm => (p.1, p.2.set p.1 (mm.map (fun row => row.map (fun x => 2 * x - 1)))))

/-- The decode loop of `GeneticNNActor.from_genome` over a store: for each
template layer (read through `self`'s references) consume its slice of the
genome, reshape, and allocate the result as a fresh matrix of the new actor. -/
def GeneticNNActor.decode_layers_store (g : List ℚ) :
    List ℕ → ℕ → Store (List (List ℚ)) → Option (List ℕ × Store (List (List ℚ)))
  | [], _, s => some ([], s)
  | ref :: refs, start, s =>
    let sh := mShape (s.get ref)
    let sz := (product [sh.1, sh.2]).getD 0
    (reshape2 sh.1 sh.2 ((g.drop start).take sz)).bind
      (fun nl =>
        let p := s.alloc nl
        (GeneticNNActor.decode_layers_store g refs (start + sz) p.2).map
          (fun q => (p.1 :: q.1, q.2)))

/-- `GeneticNNActor.from_genome` with matrices held in a store: rescale the
copied genome, construct `nna = GeneticNNActor(...)` (allocating its fresh
random layers, immediately discarded by `nna._layers = []`), then run the
decode loop against `self`'s layer references. -/
def GeneticNNActor.from_genome_store (s : Store (List (List ℚ))) (selfRefs : List ℕ)
    (genome : List ℚ) (fresh : List (List (List ℚ))) : Option (List ℕ × Store (List (List ℚ))) :=
  let g := genome.map (fun x => 2 * x - 1)
  let s1 := (s.allocList fresh).2
  GeneticNNActor.decode_layers_store g selfRefs 0 s1

/-- The fields set by `PerceptronActor.__init__`. -/
structure PerceptronActorState where
  n_obs : ℕ
  obs_range : List ℚ
  n_act : ℕ
  perceptron_matrix : List (List ℚ)

/-- `PerceptronActor.__init__`: `self._n_obs = product(observation_space.shape)`
(so construction raises, i.e. `none`, exactly when `product` does — on an
empty shape), `self._obs_range = high - low`, `self._n_act = n`, and a fresh
random matrix of shape (n_act, n_obs). -/
def PerceptronActor.init (shape : List ℕ) (low high : List ℚ) (n : ℕ)
    (w : ℕ → ℕ → ℚ) : Option PerceptronActorState :=
  (product shape).map (fun n_obs =>
    { n_obs := n_obs, obs_range := obsRange low high, n_act := n,
      perceptron_matrix := PerceptronActor.mkMatrix n n_obs w })

/-- The fields set by `NeuralNetActor.__init__`. -/
structure NeuralNetActorState where
  n_obs : ℕ
  obs_range : List ℚ
  n_act : ℕ
  layers : List (List (List ℚ))

/-- `NeuralNetActor.__init__`: like the perceptron constructor but building
one fresh random matrix per consecutive size pair. -/
def NeuralNetActor.init (shape : List ℕ) (low high : List ℚ) (n : ℕ)
    (hidden : List ℕ) (w : ℕ → ℕ → ℕ → ℚ) : Option NeuralNetActorState :=
  (product shape).map (fun n_obs =>
    { n_obs := n_obs, obs_range := obsRange low high, n_act := n,
      layers := NeuralNetActor.mkLayers n_obs n hidden w })

example : argmaxFirst ([1, 3, 3, 2] : List ℚ) = 1 := by decide
example : normalizeObs ([0, 0] : List ℚ) (obsRange [0, 0] [2, 4]) [1, 2] = [1/2, 1/2] := by
  norm_num [normalizeObs, obsRange, List.zipWith]
example : GeneticPerceptronActor.get_genome [[1, -1], [0, 0]] = [1, 0, 1/2, 1/2] := by
  norm_num [GeneticPerceptronActor.get_genome]
example : GeneticPerceptronActor.from_genome [[1, -1], [0, 0]] [1, 0, 1/2, 1/2] = some [[1, -1], [0, 0]] := by
  norm_num [GeneticPerceptronActor.from_genome, reshape2, mShape, List.range_succ]
example : GeneticNNActor.get_genome [[[1, -1]], [[0], [1]]] = [1, 0, 1/2, 1] := by
  norm_num [GeneticNNActor.get_genome]
example : GeneticNNActor.from_genome [[[1, -1]], [[0], [1]]] [1, 0, 1/2, 1] = some [[[1, -1]], [[0], [1]]] := by
  norm_num [GeneticNNActor.from_genome, GeneticNNActor.decodeLayers, reshape2, mShape, product,
    List.range_succ]
example : NeuralNetActor.layerDims 5 2 [4, 3] = [(4, 5), (3, 4), (2, 3)] := by decide

/-! ## Lemmas about flattening and reshaping -/

lemma uniform_flatten_length (m : List (List ℚ)) (c : ℕ) (h : Uniform m c) :
    m.flatten.length = m.length * c := by
  induction m with
  | nil => simp
  | cons row rest ih =>
    have hrow : row.length = c := h row (by simp)
    have hrest : Uniform rest c := fun r hr => h r (by simp [hr])
    simp [List.flatten_cons, hrow, ih hrest, Nat.succ_mul, Nat.add_comm]

lemma unflatten_flatten (m : List (List ℚ)) (c : ℕ) (h : Uniform m c) :
    (List.range m.length).map (fun i => (m.flatten.drop (i * c)).take c) = m := by
  induction m with
  | nil => simp
  | cons row rest ih =>
    have hrow : row.length = c := h row (by simp)
    have hrest : Uniform rest c := fun r hr => h r (by simp [hr])
    rw [List.length_cons, List.range_succ_eq_map, List.map_cons, List.map_map]
    have h0 : (((row :: rest).flatten.drop (0 * c)).take c) = row := by
      rw [List.flatten_cons, Nat.zero_mul, List.drop_zero, ← hrow]
      exact List.take_left row rest.flatten
    have hs : List.map ((fun i => ((row :: rest).flatten.drop (i * c)).take c) ∘ Nat.succ)
        (List.range rest.length)
        = List.map (fun i => (rest.flatten.drop (i * c)).take c) (List.range rest.length) := by
      apply List.map_congr_left
      intro i _
      simp only [Function.comp_apply]
      have hm : Nat.succ i * c = row.length + i * c := by
        rw [hrow, Nat.succ_mul, Nat.add_comm]
      rw [List.flatten_cons, hm, List.drop_append]
    rw [h0, hs, ih hrest]

lemma reshape2_flatten (m : List (List ℚ)) (h : Uniform m (mShape m).2) :
    reshape2 (mShape m).1 (mShape m).2 m.flatten = some m := by
  have hl : m.flatten.length = (mShape m).1 * (mShape m).2 :=
    uniform_flatten_length m (mShape m).2 h
  unfold reshape2
  rw [if_pos hl]
  exact congrArg some (unflatten_flatten m (mShape m).2 h)

lemma map_decode_encode (v : List ℚ) :
    (v.map (fun w => (w + 1) / 2)).map (fun x => 2 * x - 1) = v := by
  rw [List.map_map]
  have hfun : ((fun x : ℚ => 2 * x - 1) ∘ fun w => (w + 1) / 2) = id := by
    funext x
    simp only [Function.comp_apply, id]
    ring
  rw [hfun, List.map_id]

lemma reshape2_map (r c : ℕ) (v : List ℚ) (f : ℚ → ℚ) :
    reshape2 r c (v.map f) = (reshape2 r c v).map (fun mm => mm.map (fun row => row.map f)) := by
  unfold reshape2
  rw [List.length_map]
  by_cases hl : v.length = r * c
  · rw [if_pos hl, if_pos hl, Option.map_some', List.map_map]
    refine congrArg some (List.map_congr_left ?_)
    intro i _
    simp only [Function.comp_apply]
    rw [← List.map_drop, ← List.map_take]
  · rw [if_neg hl, if_neg hl, Option.map_none']

lemma uniform_mShape_of_const (m : List (List ℚ)) (c : ℕ) (h : Uniform m c) :
    Uniform m (mShape m).2 := by
  cases m with
  | nil => intro row hr; cases hr
  | cons row rest =>
    have hs : (mShape (row :: rest)).2 = c := h row (by simp)
    rw [hs]
    exact h

lemma perceptron_round_trip (m : List (List ℚ)) (h : Uniform m (mShape m).2) :
    GeneticPerceptronActor.from_genome m (GeneticPerceptronActor.get_genome m) = some m := by
  unfold GeneticPerceptronActor.from_genome GeneticPerceptronActor.get_genome
  rw [reshape2_map, reshape2_flatten m h, Option.map_some', Option.map_some', List.map_map]
  refine congrArg some ?_
  have : m.map ((fun mm : List ℚ => mm.map (fun x => 2 * x - 1)) ∘ fun row => row.map (fun w => (w + 1) / 2)) = m.map id := by
    apply List.map_congr_left
    intro row _
    simp only [Function.comp_apply, id]
    exact map_decode_encode row
  rw [this, List.map_id]

lemma foldl_append_flatten (layers : List (List (List ℚ))) (acc : List ℚ) :
    layers.foldl (fun g l => g ++ l.flatten) acc = acc ++ (layers.map List.flatten).flatten := by
  induction layers generalizing acc with
  | nil => simp
  | cons l ls ih => simp [ih, List.append_assoc]

lemma nn_genome_eq (layers : List (List (List ℚ))) :
    GeneticNNActor.get_genome layers
      = ((layers.map List.flatten).flatten).map (fun w => (w + 1) / 2) := by
  unfold GeneticNNActor.get_genome
  rw [foldl_append_flatten, List.nil_append]

lemma product_pair (a b : ℕ) : product [a, b] = some (a * b) := rfl

lemma decodeLayers_of_flatten (g : List ℚ) (ls : List (List (List ℚ))) :
    ∀ start : ℕ, (∀ l ∈ ls, Uniform l (mShape l).2) →
    g.drop start = (ls.map List.flatten).flatten →
    GeneticNNActor.decodeLayers g ls start = some ls := by
  induction ls with
  | nil => intro start _ _; rfl
  | cons l ls ih =>
    intro start hU hdrop
    have hUl : Uniform l (mShape l).2 := hU l (by simp)
    have hUls : ∀ x ∈ ls, Uniform x (mShape x).2 := fun x hx => hU x (by simp [hx])
    have hflen : l.flatten.length = (mShape l).1 * (mShape l).2 :=
      uniform_flatten_length l (mShape l).2 hUl
    have hstep : GeneticNNActor.decodeLayers g (l :: ls) start
        = (reshape2 (mShape l).1 (mShape l).2
            ((g.drop start).take ((mShape l).1 * (mShape l).2))).bind
            (fun nl => (GeneticNNActor.decodeLayers g ls (start + (mShape l).1 * (mShape l).2)).map
              (fun rest => nl :: rest)) := rfl
    have hslice : ((g.drop start).take ((mShape l).1 * (mShape l).2)) = l.flatten := by
      rw [hdrop, List.map_cons, List.flatten_cons, ← hflen]
      exact List.take_left l.flatten (ls.map List.flatten).flatten
    have hdrop2 : g.drop (start + (mShape l).1 * (mShape l).2)
        = (ls.map List.flatten).flatten := by
      rw [← List.drop_drop, hdrop, List.map_cons, List.flatten_cons, ← hflen]
      exact List.drop_left l.flatten (ls.map List.flatten).flatten
    rw [hstep, hslice, reshape2_flatten l hUl, Option.some_bind,
      ih (start + (mShape l).1 * (mShape l).2) hUls hdrop2, Option.map_some']

lemma nn_round_trip (layers : List (List (List ℚ)))
    (h : ∀ l ∈ layers, Uniform l (mShape l).2) :
    GeneticNNActor.from_genome layers (GeneticNNActor.get_genome layers) = some layers := by
  unfold GeneticNNActor.from_genome
  rw [nn_genome_eq, map_decode_encode]
  exact decodeLayers_of_flatten _ layers 0 h (by rw [List.drop_zero])

lemma mkMatrix_uniform (n_act n_obs : ℕ) (w : ℕ → ℕ → ℚ) :
    Uniform (PerceptronActor.mkMatrix n_act n_obs w) n_obs := by
  intro row hr
  simp only [PerceptronActor.mkMatrix, List.mem_map, List.mem_range] at hr
  obtain ⟨i, _, rfl⟩ := hr
  simp

lemma mkLayers_uniform (n_obs n_act : ℕ) (hidden : List ℕ) (w : ℕ → ℕ → ℕ → ℚ) :
    ∀ l ∈ NeuralNetActor.mkLayers n_obs n_act hidden w, Uniform l (mShape l).2 := by
  intro l hl
  simp only [NeuralNetActor.mkLayers, List.mem_map] at hl
  obtain ⟨kd, _, rfl⟩ := hl
  refine uniform_mShape_of_const _ kd.2.2 ?_
  intro row hr
  simp only [List.mem_map, List.mem_range] at hr
  obtain ⟨i, _, rfl⟩ := hr
  simp

/-- Claim C1: for every freshly constructed GeneticPerceptronActor or
GeneticNNActor A, decoding the encoding of A against A itself as shape
template (`A.from_genome(A.get_genome())`) yields an actor whose weight
matrices are element-wise equal to A's (here: exactly equal, which is within
any floating-point tolerance). -/
theorem round_trip_identity :
    (∀ (n_act n_obs : ℕ) (w : ℕ → ℕ → ℚ),
      GeneticPerceptronActor.from_genome (PerceptronActor.mkMatrix n_act n_obs w)
        (GeneticPerceptronActor.get_genome (PerceptronActor.mkMatrix n_act n_obs w))
      = some (PerceptronActor.mkMatrix n_act n_obs w)) ∧
    (∀ (n_obs n_act : ℕ) (hidden : List ℕ) (w : ℕ → ℕ → ℕ → ℚ),
      GeneticNNActor.from_genome (NeuralNetActor.mkLayers n_obs n_act hidden w)
        (GeneticNNActor.get_genome (NeuralNetActor.mkLayers n_obs n_act hidden w))
      = some (NeuralNetActor.mkLayers n_obs n_act hidden w)) := by
  constructor
  · intro n_act n_obs w
    exact perceptron_round_trip _
      (uniform_mShape_of_const _ n_obs (mkMatrix_uniform n_act n_obs w))
  · intro n_obs n_act hidden w
    exact nn_round_trip _ (mkLayers_uniform n_obs n_act hidden w)

/-- Claim C2: for every parameter container (a perceptron's single matrix or
a network's layer list), the length of the vector returned by `get_genome`
equals the sum over all weight matrices of out_size*in_size. -/
theorem genome_length :
    (∀ m : List (List ℚ), Uniform m (mShape m).2 →
      (GeneticPerceptronActor.get_genome m).length = (mShape m).1 * (mShape m).2) ∧
    (∀ layers : List (List (List ℚ)), (∀ l ∈ layers, Uniform l (mShape l).2) →
      (GeneticNNActor.get_genome layers).length
        = (layers.map (fun l => (mShape l).1 * (mShape l).2)).sum) := by
  constructor
  · intro m h
    unfold GeneticPerceptronActor.get_genome
    rw [List.length_map]
    exact uniform_flatten_length m (mShape m).2 h
  · intro layers h
    rw [nn_genome_eq, List.length_map, List.length_flatten, List.map_map]
    refine congrArg List.sum (List.map_congr_left ?_)
    intro l hl
    simp only [Function.comp_apply]
    exact uniform_flatten_length l (mShape l).2 (h l hl)

/-- Witness for C2 at a concrete 2×2 matrix and a concrete two-layer list. -/
theorem genome_length_witness :
    (Uniform [[1, 2], [3, 4]] (mShape [[(1 : ℚ), 2], [3, 4]]).2 ∧
      (GeneticPerceptronActor.get_genome [[1, 2], [3, 4]]).length
        = (mShape [[(1 : ℚ), 2], [3, 4]]).1 * (mShape [[(1 : ℚ), 2], [3, 4]]).2) ∧
    ((∀ l ∈ [[[(1 : ℚ), 2]], [[3], [4]]], Uniform l (mShape l).2) ∧
      (GeneticNNActor.get_genome [[[1, 2]], [[3], [4]]]).length
        = ([[[(1 : ℚ), 2]], [[3], [4]]].map (fun l => (mShape l).1 * (mShape l).2)).sum) :=
  ⟨⟨by simp [Uniform, mShape], genome_length.1 [[1, 2], [3, 4]] (by simp [Uniform, mShape])⟩,
   ⟨by simp [Uniform, mShape], genome_length.2 [[[1, 2]], [[3], [4]]] (by simp [Uniform, mShape])⟩⟩

/-- Claim C3: for every container whose weight-matrix entries lie in [-1, 1],
every element of the vector returned by `get_genome` lies in [0, 1]. -/
theorem genome_range :
    (∀ m : List (List ℚ), (∀ row ∈ m, ∀ x ∈ row, -1 ≤ x ∧ x ≤ 1) →
      ∀ g ∈ GeneticPerceptronActor.get_genome m, 0 ≤ g ∧ g ≤ 1) ∧
    (∀ layers : List (List (List ℚ)),
      (∀ l ∈ layers, ∀ row ∈ l, ∀ x ∈ row, -1 ≤ x ∧ x ≤ 1) →
      ∀ g ∈ GeneticNNActor.get_genome layers, 0 ≤ g ∧ g ≤ 1) := by
  constructor
  · intro m h g hg
    unfold GeneticPerceptronActor.get_genome at hg
    rw [List.mem_map] at hg
    obtain ⟨w, hw, rfl⟩ := hg
    rw [List.mem_flatten] at hw
    obtain ⟨row, hrow, hwrow⟩ := hw
    obtain ⟨h1, h2⟩ := h row hrow w hwrow
    constructor
    · linarith
    · linarith
  · intro layers h g hg
    rw [nn_genome_eq, List.mem_map] at hg
    obtain ⟨w, hw, rfl⟩ := hg
    rw [List.mem_flatten] at hw
    obtain ⟨fl, hfl, hwfl⟩ := hw
    rw [List.mem_map] at hfl
    obtain ⟨l, hl, rfl⟩ := hfl
    rw [List.mem_flatten] at hwfl
    obtain ⟨row, hrow, hwrow⟩ := hwfl
    obtain ⟨h1, h2⟩ := h l hl row hrow w hwrow
    constructor
    · linarith
    · linarith

/-- Witness for C3 at concrete containers with entries in [-1, 1]. -/
theorem genome_range_witness :
    ((∀ row ∈ [[(1 : ℚ), -1], [0, 1/2]], ∀ x ∈ row, -1 ≤ x ∧ x ≤ 1) ∧
      ∀ g ∈ GeneticPerceptronActor.get_genome [[1, -1], [0, 1/2]], 0 ≤ g ∧ g ≤ 1) ∧
    ((∀ l ∈ [[[(1 : ℚ), -1]], [[0], [1/2]]], ∀ row ∈ l, ∀ x ∈ row, -1 ≤ x ∧ x ≤ 1) ∧
      ∀ g ∈ GeneticNNActor.get_genome [[[1, -1]], [[0], [1/2]]], 0 ≤ g ∧ g ≤ 1) :=
  ⟨⟨by norm_num, genome_range.1 [[1, -1], [0, 1/2]] (by norm_num)⟩,
   ⟨by norm_num, genome_range.2 [[[1, -1]], [[0], [1/2]]] (by norm_num)⟩⟩

/-! ## The first-wins argmax scan -/

lemma argmaxScan_spec {α : Type} [LinearOrder α] (d : α) :
    ∀ (xs : List α) (bv : α) (b j : ℕ),
    (argmaxScan xs (bv, b) j = (bv, b) ∧ ∀ x ∈ xs, x ≤ bv)
    ∨ (∃ k, k < xs.length ∧
        argmaxScan xs (bv, b) j = (xs.getD k d, j + k) ∧
        bv < xs.getD k d ∧
        (∀ m, m < k → xs.getD m d < xs.getD k d) ∧
        (∀ m, k < m → m < xs.length → xs.getD m d ≤ xs.getD k d)) := by
  intro xs
  induction xs with
  | nil => intro bv b j; left; exact ⟨rfl, by simp⟩
  | cons x xs ih =>
    intro bv b j
    by_cases hlt : bv < x
    · right
      have hstep : argmaxScan (x :: xs) (bv, b) j = argmaxScan xs (x, j) (j + 1) := by
        simp [argmaxScan, hlt]
      rcases ih x j (j + 1) with ⟨heq, hall⟩ | ⟨k, hk, heq, hbk, hbefore, hafter⟩
      · refine ⟨0, by simp, ?_, ?_, ?_, ?_⟩
        · rw [hstep, heq]; simp
        · simpa using hlt
        · intro m hm; omega
        · intro m hm0 hml
          obtain ⟨m', rfl⟩ : ∃ m', m = m' + 1 := ⟨m - 1, by omega⟩
          simp only [List.getD_cons_succ, List.getD_cons_zero]
          have hml' : m' < xs.length := by simpa using hml
          rw [List.getD_eq_getElem xs d hml']
          exact hall _ (List.getElem_mem hml')
      · refine ⟨k + 1, by simpa using hk, ?_, ?_, ?_, ?_⟩
        · rw [hstep, heq]; simp [List.getD_cons_succ]; omega
        · calc bv < x := hlt
            _ < xs.getD k d := hbk
        · intro m hm
          cases m with
          | zero => simpa using hbk
          | succ m' => simp only [List.getD_cons_succ]; exact hbefore m' (by omega)
        · intro m hm0 hml
          obtain ⟨m', rfl⟩ : ∃ m', m = m' + 1 := ⟨m - 1, by omega⟩
          simp only [List.getD_cons_succ]
          exact hafter m' (by omega) (by simpa using hml)
    · have hstep : argmaxScan (x :: xs) (bv, b) j = argmaxScan xs (bv, b) (j + 1) := by
        simp [argmaxScan, hlt]
      rcases ih bv b (j + 1) with ⟨heq, hall⟩ | ⟨k, hk, heq, hbk, hbefore, hafter⟩
      · left
        refine ⟨by rw [hstep, heq], ?_⟩
        intro y hy
        rcases List.mem_cons.mp hy with rfl | hy'
        · exact le_of_not_lt hlt
        · exact hall y hy'
      · right
        refine ⟨k + 1, by simpa using hk, ?_, ?_, ?_, ?_⟩
        · rw [hstep, heq]; simp [List.getD_cons_succ]; omega
        · simpa using hbk
        · intro m hm
          cases m with
          | zero =>
            simp only [List.getD_cons_zero, List.getD_cons_succ]
            exact lt_of_le_of_lt (le_of_not_lt hlt) hbk
          | succ m' => simp only [List.getD_cons_succ]; exact hbefore m' (by omega)
        · intro m hm0 hml
          obtain ⟨m', rfl⟩ : ∃ m', m = m' + 1 := ⟨m - 1, by omega⟩
          simp only [List.getD_cons_succ]
          exact hafter m' (by omega) (by simpa using hml)

/-- Claim C5: for every non-empty output vector, the action index returned by
the argmax loop of `react_to` (shared by the perceptron and network variants)
is the smallest index i such that no index j has a strictly greater value
than the value at i; in particular, on [0.5, 0.9, 0.9, 0.2] index 1 is
selected, not 2. -/
theorem argmax_first_tie_break {α : Type} [LinearOrder α] (d : α) (v : List α) (hv : v ≠ []) :
    (argmaxFirst v < v.length ∧
      (∀ j, j < v.length → v.getD j d ≤ v.getD (argmaxFirst v) d) ∧
      (∀ k, k < argmaxFirst v → ∃ j, j < v.length ∧ v.getD k d < v.getD j d)) ∧
    argmaxFirst ([0.5, 0.9, 0.9, 0.2] : List ℚ) = 1 := by
  constructor
  · match v, hv with
    | x :: xs, _ =>
      have hdef : argmaxFirst (x :: xs) = (argmaxScan xs (x, 0) 1).2 := rfl
      rcases argmaxScan_spec d xs x 0 1 with ⟨heq, hall⟩ | ⟨k, hk, heq, hbk, hbefore, hafter⟩
      · have hres : argmaxFirst (x :: xs) = 0 := by rw [hdef, heq]
        rw [hres]
        refine ⟨by simp, ?_, ?_⟩
        · intro j hj
          cases j with
          | zero => simp
          | succ m =>
            simp only [List.getD_cons_succ, List.getD_cons_zero]
            have hml : m < xs.length := by simpa using hj
            rw [List.getD_eq_getElem xs d hml]
            exact hall _ (List.getElem_mem hml)
        · intro k hkc; omega
      · have hres : argmaxFirst (x :: xs) = k + 1 := by rw [hdef, heq, Nat.add_comm]
        rw [hres]
        refine ⟨by simpa using hk, ?_, ?_⟩
        · intro j hj
          simp only [List.getD_cons_succ]
          cases j with
          | zero => simp only [List.getD_cons_zero]; exact le_of_lt hbk
          | succ m =>
            simp only [List.getD_cons_succ]
            rcases lt_trichotomy m k with hmk | rfl | hmk
            · exact le_of_lt (hbefore m hmk)
            · exact le_refl _
            · exact hafter m hmk (by simpa using hj)
        · intro k' hk'
          refine ⟨k + 1, by simpa using hk, ?_⟩
          simp only [List.getD_cons_succ]
          cases k' with
          | zero => simpa using hbk
          | succ m =>
            simp only [List.getD_cons_succ]
            exact hbefore m (by omega)
  · norm_num [argmaxFirst, argmaxScan]

/-- Witness for C5 at the spec's concrete vector [0.5, 0.9, 0.9, 0.2]. -/
theorem argmax_first_tie_break_witness :
    ([0.5, 0.9, 0.9, 0.2] : List ℚ) ≠ [] ∧
    ((argmaxFirst ([0.5, 0.9, 0.9, 0.2] : List ℚ) < ([0.5, 0.9, 0.9, 0.2] : List ℚ).length ∧
      (∀ j, j < ([0.5, 0.9, 0.9, 0.2] : List ℚ).length →
        ([0.5, 0.9, 0.9, 0.2] : List ℚ).getD j 0
          ≤ ([0.5, 0.9, 0.9, 0.2] : List ℚ).getD (argmaxFirst ([0.5, 0.9, 0.9, 0.2] : List ℚ)) 0) ∧
      (∀ k, k < argmaxFirst ([0.5, 0.9, 0.9, 0.2] : List ℚ) →
        ∃ j, j < ([0.5, 0.9, 0.9, 0.2] : List ℚ).length ∧
          ([0.5, 0.9, 0.9, 0.2] : List ℚ).getD k 0 < ([0.5, 0.9, 0.9, 0.2] : List ℚ).getD j 0)) ∧
      argmaxFirst ([0.5, 0.9, 0.9, 0.2] : List ℚ) = 1) :=
  ⟨by simp, argmax_first_tie_break 0 ([0.5, 0.9, 0.9, 0.2] : List ℚ) (by simp)⟩

/-! ## The logistic squashing never changes the selected action -/

lemma sigmoid_strictMono : StrictMono sigmoid := by
  intro x y hxy
  unfold sigmoid
  have h1 : Real.exp (-y) < Real.exp (-x) := Real.exp_lt_exp.mpr (by linarith)
  have h2 : (0 : ℝ) < 1 + Real.exp (-y) := by positivity
  exact one_div_lt_one_div_of_lt h2 (by linarith)

lemma argmaxScan_map_strictMono {α β : Type} [LinearOrder α] [LinearOrder β]
    {f : α → β} (hf : StrictMono f) :
    ∀ (xs : List α) (bv : α) (b j : ℕ),
    argmaxScan (xs.map f) (f bv, b) j
      = (f (argmaxScan xs (bv, b) j).1, (argmaxScan xs (bv, b) j).2) := by
  intro xs
  induction xs with
  | nil => intro bv b j; rfl
  | cons x xs ih =>
    intro bv b j
    by_cases hlt : bv < x
    · have hlt' : f bv < f x := hf hlt
      simp only [List.map_cons, argmaxScan, if_pos hlt, if_pos hlt']
      exact ih x j (j + 1)
    · have hlt' : ¬ f bv < f x := fun hc => hlt (hf.lt_iff_lt.mp hc)
      simp only [List.map_cons, argmaxScan, if_neg hlt, if_neg hlt']
      exact ih bv b (j + 1)

lemma argmaxFirst_map_strictMono {α β : Type} [LinearOrder α] [LinearOrder β]
    {f : α → β} (hf : StrictMono f) (v : List α) :
    argmaxFirst (v.map f) = argmaxFirst v := by
  cases v with
  | nil => rfl
  | cons x xs =>
    show (argmaxScan (xs.map f) (f x, 0) 1).2 = (argmaxScan xs (x, 0) 1).2
    rw [argmaxScan_map_strictMono hf xs x 0 1]

/-- Counterexample to claim C4 as stated: on the concrete weight matrix
W = [[2, 0], [0, 1]] and normalized input x = [1, 1], the network with
hidden_layers=[] returns the same action index as the perceptron — the two
results are not distinct. -/
theorem network_layering_counterexample :
    argmaxFirst (NeuralNetActor.evalLayers [[[2, 0], [0, 1]]] [1, 1])
      = argmaxFirst (matVec [[(2 : ℝ), 0], [0, 1]] [1, 1]) := by
  have h : NeuralNetActor.evalLayers [[[(2 : ℝ), 0], [0, 1]]] [1, 1]
      = (matVec [[(2 : ℝ), 0], [0, 1]] [1, 1]).map sigmoid := rfl
  rw [h, argmaxFirst_map_strictMono sigmoid_strictMono]

/-- Claim C4 (amended): on a single weight matrix W and identical normalized
input x, the network's pre-argmax output vector is sigmoid(W·x) — different
in general from the perceptron's raw W·x (e.g. [sigmoid 0] = [1/2] ≠ [0]) —
but the returned action index argmax(sigmoid(W·x)) always equals the
perceptron's argmax(W·x), because the logistic function is strictly
increasing: the two variants differ in their output vectors, not in the
selected action. -/
theorem network_layering_amended (W : List (List ℝ)) (x : List ℝ) :
    NeuralNetActor.evalLayers [W] x = (matVec W x).map sigmoid ∧
    argmaxFirst (NeuralNetActor.evalLayers [W] x) = argmaxFirst (matVec W x) ∧
    NeuralNetActor.evalLayers [[[0, 0]]] [1, 1] ≠ matVec [[(0 : ℝ), 0]] [1, 1] := by
  refine ⟨rfl, ?_, ?_⟩
  · show argmaxFirst ((matVec W x).map sigmoid) = argmaxFirst (matVec W x)
    exact argmaxFirst_map_strictMono sigmoid_strictMono _
  · have h1 : NeuralNetActor.evalLayers [[[(0 : ℝ), 0]]] [1, 1]
        = [sigmoid (dot [0, 0] [1, 1])] := rfl
    have h2 : matVec [[(0 : ℝ), 0]] [1, 1] = [dot [0, 0] [1, 1]] := rfl
    have h3 : dot ([0, 0] : List ℝ) [1, 1] = 0 := by
      simp [dot]
    rw [h1, h2, h3]
    intro hc
    have : sigmoid 0 = 0 := List.head_eq_of_cons_eq hc
    rw [sigmoid] at this
    simp [Real.exp_zero] at this

/-! ## Normalization -/

lemma normalizeObs_length (low high obs : List ℚ)
    (hl : low.length = obs.length) (hh : high.length = obs.length) :
    (normalizeObs low (obsRange low high) obs).length = obs.length := by
  unfold normalizeObs obsRange
  rw [List.length_zipWith, List.length_zipWith, List.length_zipWith, hl, hh]
  simp

/-- Claim C7: for an observation space with elementwise bounds `low < high`
and an observation of the space's shape (flattened length = product of the
shape's dimensions), `react_to` first normalizes the observation to the
vector `(observation - low) / (high - low)` of that same length, before any
weight matrix is applied; concretely, low=[0,0], high=[2,4], observation
[1,2] normalizes to [0.5, 0.5]. -/
theorem normalization (shape : List ℕ) (low high obs : List ℚ)
    (hl : low.length = obs.length) (hh : high.length = obs.length)
    (hrange : ∀ i, i < obs.length → low.getD i 0 < high.getD i 0)
    (hshape : product shape = some obs.length) :
    ((normalizeObs low (obsRange low high) obs).length = obs.length ∧
      product shape = some (normalizeObs low (obsRange low high) obs).length) ∧
    (∀ i, i < obs.length →
      (normalizeObs low (obsRange low high) obs).getD i 0
        = (obs.getD i 0 - low.getD i 0) / (high.getD i 0 - low.getD i 0)) ∧
    (∀ m : List (List ℚ), PerceptronActor.react_to low (obsRange low high) m obs
        = argmaxFirst (matVec m (normalizeObs low (obsRange low high) obs))) ∧
    normalizeObs ([0, 0] : List ℚ) (obsRange [0, 0] [2, 4]) [1, 2] = [0.5, 0.5] := by
  have hlen := normalizeObs_length low high obs hl hh
  refine ⟨⟨hlen, by rw [hlen]; exact hshape⟩, ?_, fun m => rfl, ?_⟩
  · intro i hi
    have hi1 : i < (normalizeObs low (obsRange low high) obs).length := by
      rw [hlen]; exact hi
    have hil : i < low.length := by rw [hl]; exact hi
    have hih : i < high.length := by rw [hh]; exact hi
    rw [List.getD_eq_getElem _ 0 hi1]
    unfold normalizeObs obsRange
    rw [List.getElem_zipWith, List.getElem_zipWith, List.getElem_zipWith]
    rw [List.getD_eq_getElem obs 0 hi, List.getD_eq_getElem low 0 hil,
      List.getD_eq_getElem high 0 hih]
  · unfold normalizeObs obsRange
    norm_num [List.zipWith]

/-- Witness for C7 at the spec's concrete space low=[0,0], high=[2,4],
observation [1,2]. -/
theorem normalization_witness :
    (([0, 0] : List ℚ).length = ([1, 2] : List ℚ).length ∧
      ([2, 4] : List ℚ).length = ([1, 2] : List ℚ).length ∧
      (∀ i, i < ([1, 2] : List ℚ).length →
        ([0, 0] : List ℚ).getD i 0 < ([2, 4] : List ℚ).getD i 0) ∧
      product [2] = some ([1, 2] : List ℚ).length) ∧
    normalizeObs ([0, 0] : List ℚ) (obsRange [0, 0] [2, 4]) [1, 2] = [0.5, 0.5] :=
  ⟨⟨rfl, rfl, fun i hi => by
      have hi2 : i < 2 := by simpa using hi
      interval_cases i <;> norm_num, rfl⟩,
   (normalization [2] [0, 0] [2, 4] [1, 2] rfl rfl
      (fun i hi => by
        have hi2 : i < 2 := by simpa using hi
        interval_cases i <;> norm_num) rfl).2.2.2⟩

/-! ## Shape preservation of the decode loop -/

lemma flatten_chunks (c : ℕ) : ∀ (r : ℕ) (v : List ℚ), v.length = r * c →
    ((List.range r).map (fun i => (v.drop (i * c)).take c)).flatten = v := by
  intro r
  induction r with
  | zero =>
    intro v hv
    have hnil : v = [] := List.length_eq_zero.mp (by simpa using hv)
    simp [hnil]
  | succ r ih =>
    intro v hv
    rw [List.range_succ_eq_map, List.map_cons, List.flatten_cons, List.map_map]
    have h0 : (v.drop (0 * c)).take c = v.take c := by rw [Nat.zero_mul, List.drop_zero]
    have hs : List.map ((fun i => (v.drop (i * c)).take c) ∘ Nat.succ) (List.range r)
        = List.map (fun i => ((v.drop c).drop (i * c)).take c) (List.range r) := by
      apply List.map_congr_left
      intro i _
      simp only [Function.comp_apply]
      rw [List.drop_drop, Nat.succ_mul, Nat.add_comm (i * c) c]
    rw [h0, hs, ih (v.drop c) (by rw [List.length_drop, hv, Nat.succ_mul]; omega)]
    exact List.take_append_drop c v

lemma reshape2_some (r c : ℕ) (v : List ℚ) (hv : v.length = r * c) :
    ∃ nl, reshape2 r c v = some nl ∧ nl.length = r ∧ Uniform nl c ∧ nl.flatten = v := by
  refine ⟨_, by unfold reshape2; rw [if_pos hv], by simp, ?_, flatten_chunks c r v hv⟩
  intro row hr
  simp only [List.mem_map, List.mem_range] at hr
  obtain ⟨i, hi, rfl⟩ := hr
  have h1 : (i + 1) * c ≤ r * c := Nat.mul_le_mul_right c hi
  rw [Nat.add_mul, Nat.one_mul] at h1
  rw [List.length_take, List.length_drop, hv]
  omega

lemma decodeLayers_total (g : List ℚ) (ls : List (List (List ℚ))) :
    ∀ start, (∀ l ∈ ls, Uniform l (mShape l).2) →
    (g.drop start).length = (ls.map (fun l => (mShape l).1 * (mShape l).2)).sum →
    ∃ rs, GeneticNNActor.decodeLayers g ls start = some rs ∧
      List.Forall₂ (fun nl l => nl.length = l.length ∧ Uniform nl (mShape l).2) rs ls ∧
      (rs.map List.flatten).flatten = g.drop start := by
  induction ls with
  | nil =>
    intro start _ hlen
    refine ⟨[], rfl, List.Forall₂.nil, ?_⟩
    have : g.drop start = [] := List.eq_nil_of_length_eq_zero (by simpa using hlen)
    simp [this]
  | cons l ls ih =>
    intro start hU hlen
    simp only [List.map_cons, List.sum_cons] at hlen
    have hsz : ((g.drop start).take ((mShape l).1 * (mShape l).2)).length
        = (mShape l).1 * (mShape l).2 := by
      rw [List.length_take, hlen]
      exact Nat.min_eq_left (by omega)
    obtain ⟨nl, hre, hnlr, hnlu, hnlf⟩ := reshape2_some _ _ _ hsz
    have hstep : GeneticNNActor.decodeLayers g (l :: ls) start
        = (reshape2 (mShape l).1 (mShape l).2
            ((g.drop start).take ((mShape l).1 * (mShape l).2))).bind
            (fun nl => (GeneticNNActor.decodeLayers g ls (start + (mShape l).1 * (mShape l).2)).map
              (fun rest => nl :: rest)) := rfl
    have hUls : ∀ x ∈ ls, Uniform x (mShape x).2 := fun x hx => hU x (by simp [hx])
    have hdroplen : (g.drop (start + (mShape l).1 * (mShape l).2)).length
        = (ls.map (fun l => (mShape l).1 * (mShape l).2)).sum := by
      rw [← List.drop_drop, List.length_drop, hlen]
      omega
    obtain ⟨rs, hrs, hfa, hflat⟩ := ih (start + (mShape l).1 * (mShape l).2) hUls hdroplen
    refine ⟨nl :: rs, ?_, List.Forall₂.cons ⟨hnlr, hnlu⟩ hfa, ?_⟩
    · rw [hstep, hre, Option.some_bind, hrs, Option.map_some']
    · rw [List.map_cons, List.flatten_cons, hnlf, hflat, ← List.drop_drop]
      exact List.take_append_drop _ _

lemma hasShape_of (nl l : List (List ℚ)) (rc : ℕ × ℕ)
    (hml : mShape l = rc) (hUl : Uniform l rc.2)
    (h1 : nl.length = l.length) (h2 : Uniform nl (mShape l).2) :
    mShape nl = rc ∧ Uniform nl rc.2 := by
  have hU2 : Uniform nl rc.2 := by rw [← hml]; exact h2
  have hlen : nl.length = rc.1 := by rw [h1, ← hml]; rfl
  refine ⟨?_, hU2⟩
  cases nl with
  | nil =>
    have hlnil : l = [] := List.length_eq_zero.mp h1.symm
    rw [hlnil] at hml
    exact hml
  | cons row rest =>
    have hrow : row.length = rc.2 := hU2 row (by simp)
    have : mShape (row :: rest) = ((row :: rest).length, row.length) := rfl
    rw [this, hrow, hlen]

lemma forall₂_uniform {layers : List (List (List ℚ))} {dims : List (ℕ × ℕ)}
    (h : List.Forall₂ (fun l rc => mShape l = rc ∧ Uniform l rc.2) layers dims) :
    ∀ l ∈ layers, Uniform l (mShape l).2 := by
  induction h with
  | nil => intro l hl; cases hl
  | @cons a b l₁ l₂ hp hrest ih =>
    intro l hl
    rcases List.mem_cons.mp hl with rfl | hl'
    · rw [hp.1]; exact hp.2
    · exact ih l hl'

lemma forall₂_sizes {layers : List (List (List ℚ))} {dims : List (ℕ × ℕ)}
    (h : List.Forall₂ (fun l rc => mShape l = rc ∧ Uniform l rc.2) layers dims) :
    layers.map (fun l => (mShape l).1 * (mShape l).2) = dims.map (fun rc => rc.1 * rc.2) := by
  induction h with
  | nil => rfl
  | @cons a b l₁ l₂ hp hrest ih => simp [ih, hp.1]

lemma forall₂_shapes {rs layers : List (List (List ℚ))} {dims : List (ℕ × ℕ)}
    (ht : List.Forall₂ (fun l rc => mShape l = rc ∧ Uniform l rc.2) layers dims)
    (hr : List.Forall₂ (fun nl l => nl.length = l.length ∧ Uniform nl (mShape l).2) rs layers) :
    List.Forall₂ (fun nl rc => mShape nl = rc ∧ Uniform nl rc.2) rs dims := by
  induction hr generalizing dims with
  | nil => cases ht; exact List.Forall₂.nil
  | @cons a b l₁ l₂ hp hrest ih =>
    cases ht with
    | cons hq hqs =>
      exact List.Forall₂.cons (hasShape_of a b _ hq.1 hq.2 hp.1 hp.2) (ih hqs)

/-- Claim C6: for hidden_layers=[4,3], n_obs=5, n_act=2, the constructed
network has exactly three weight matrices of shapes (4,5), (3,4), (2,3) in
that order, and `from_genome` on a genome of length 38 = 4*5+3*4+2*3
reconstructs layers with exactly these shapes, each layer consuming its
elements consecutively in order at a running offset (the reconstructed
layers' concatenated row-major entries are exactly the rescaled genome). -/
theorem shape_preservation :
    NeuralNetActor.layerDims 5 2 [4, 3] = [(4, 5), (3, 4), (2, 3)] ∧
    (∀ (layers : List (List (List ℚ))) (genome : List ℚ),
      List.Forall₂ (fun l rc => mShape l = rc ∧ Uniform l rc.2) layers [(4, 5), (3, 4), (2, 3)] →
      genome.length = 38 →
      ∃ ls, GeneticNNActor.from_genome layers genome = some ls ∧
        List.Forall₂ (fun l rc => mShape l = rc ∧ Uniform l rc.2) ls [(4, 5), (3, 4), (2, 3)] ∧
        (ls.map List.flatten).flatten = genome.map (fun x => 2 * x - 1)) := by
  refine ⟨by decide, ?_⟩
  intro layers genome ht hlen
  have hU := forall₂_uniform ht
  have hsum : (layers.map (fun l => (mShape l).1 * (mShape l).2)).sum = 38 := by
    rw [forall₂_sizes ht]; rfl
  obtain ⟨rs, hdec, hfa, hflat⟩ :=
    decodeLayers_total (genome.map (fun x => 2 * x - 1)) layers 0 hU
      (by rw [List.drop_zero, List.length_map, hlen, hsum])
  refine ⟨rs, hdec, forall₂_shapes ht hfa, ?_⟩
  rw [hflat, List.drop_zero]

/-- Witness for C6 at concrete all-zero layers of shapes (4,5), (3,4), (2,3)
and the constant genome of length 38. -/
theorem shape_preservation_witness :
    (List.Forall₂ (fun l rc => mShape l = rc ∧ Uniform l rc.2)
      [List.replicate 4 (List.replicate 5 (0 : ℚ)), List.replicate 3 (List.replicate 4 0),
        List.replicate 2 (List.replicate 3 0)] [(4, 5), (3, 4), (2, 3)] ∧
      (List.replicate 38 (1/2 : ℚ)).length = 38) ∧
    (∃ ls, GeneticNNActor.from_genome
        [List.replicate 4 (List.replicate 5 (0 : ℚ)), List.replicate 3 (List.replicate 4 0),
          List.replicate 2 (List.replicate 3 0)] (List.replicate 38 (1/2 : ℚ)) = some ls ∧
      List.Forall₂ (fun l rc => mShape l = rc ∧ Uniform l rc.2) ls [(4, 5), (3, 4), (2, 3)] ∧
      (ls.map List.flatten).flatten = (List.replicate 38 (1/2 : ℚ)).map (fun x => 2 * x - 1)) :=
  ⟨⟨by simp [List.forall₂_cons, Uniform, mShape], by simp⟩,
   shape_preservation.2 _ _ (by simp [List.forall₂_cons, Uniform, mShape]) (by simp)⟩

/-! ## The helper `product` and construction over an empty shape -/

lemma foldl_mul_eq_prod (x : ℕ) (xs : List ℕ) :
    xs.foldl (fun a b => a * b) x = (x :: xs).prod := by
  induction xs generalizing x with
  | nil => simp
  | cons y ys ih =>
    rw [List.foldl_cons, ih (x * y), List.prod_cons, List.prod_cons, List.prod_cons, mul_assoc]

/-- Claim C10: the helper `product` is undefined on an empty sequence
(`reduce` with no initial value raises), so constructing a PerceptronActor or
NeuralNetActor over an observation space with empty shape fails at
construction; for every non-empty shape, `product` returns the product of the
elements, and construction succeeds. -/
theorem product_empty_fails :
    product ([] : List ℕ) = none ∧
    (∀ (low high : List ℚ) (n : ℕ) (w : ℕ → ℕ → ℚ),
      PerceptronActor.init [] low high n w = none) ∧
    (∀ (low high : List ℚ) (n : ℕ) (hidden : List ℕ) (w : ℕ → ℕ → ℕ → ℚ),
      NeuralNetActor.init [] low high n hidden w = none) ∧
    (∀ (x : ℕ) (xs : List ℕ), product (x :: xs) = some ((x :: xs).prod)) ∧
    (∀ (shape : List ℕ) (low high : List ℚ) (n : ℕ) (w : ℕ → ℕ → ℚ), shape ≠ [] →
      (PerceptronActor.init shape low high n w).isSome) := by
  refine ⟨rfl, fun _ _ _ _ => rfl, fun _ _ _ _ _ => rfl, ?_, ?_⟩
  · intro x xs
    show some (xs.foldl (fun a b => a * b) x) = some ((x :: xs).prod)
    rw [foldl_mul_eq_prod]
  · intro shape low high n w hne
    match shape, hne with
    | x :: xs, _ => rfl

/-- Witness for C10: construction over the non-empty shape [2, 3] succeeds. -/
theorem product_empty_fails_witness :
    ([2, 3] : List ℕ) ≠ [] ∧
    (PerceptronActor.init [2, 3] [] [] 1 (fun _ _ => 0)).isSome :=
  ⟨by simp, product_empty_fails.2.2.2.2 [2, 3] [] [] 1 (fun _ _ => 0) (by simp)⟩

/-! ## Frame properties: reads and writes through the store -/

lemma store_get_alloc {β : Type} [Inhabited β] (s : Store β) (v : β) (r : ℕ)
    (hr : r < s.cells.length) : (s.alloc v).2.get r = s.get r := by
  unfold Store.alloc Store.get
  exact List.getD_append _ _ _ _ hr

lemma store_get_set_ne {β : Type} [Inhabited β] (s : Store β) (r' r : ℕ) (v : β)
    (h : r' ≠ r) : (s.set r' v).get r = s.get r := by
  unfold Store.set Store.get
  rw [List.getD_eq_getElem?_getD, List.getD_eq_getElem?_getD]
  show ((s.cells.set r' v)[r]?).getD default = (s.cells[r]?).getD default
  rw [List.getElem?_set_ne h]

lemma store_set_length {β : Type} (s : Store β) (r : ℕ) (v : β) :
    (s.set r v).cells.length = s.cells.length := List.length_set s.cells r v

lemma store_alloc_fst {β : Type} (s : Store β) (v : β) :
    (s.alloc v).1 = s.cells.length := rfl

lemma store_alloc_length {β : Type} (s : Store β) (v : β) :
    (s.alloc v).2.cells.length = s.cells.length + 1 := by
  unfold Store.alloc
  simp

lemma store_get_of_cells_append {β : Type} [Inhabited β] (s1 s : Store β) (ext : List β)
    (h : s1.cells = s.cells ++ ext) (r : ℕ) (hr : r < s.cells.length) :
    s1.get r = s.get r := by
  unfold Store.get
  rw [h]
  exact List.getD_append _ _ _ _ hr

/-- Claim C9: `react_to` leaves the caller's observation array unchanged, for
both the perceptron and the network variant: the normalization mutates a
fresh copy (`observation.copy()`), never the argument. -/
theorem react_to_preserves_observation :
    (∀ (low range : List ℚ) (m : List (List ℚ)) (s : Store (List ℚ)) (obsRef : ℕ),
      obsRef < s.cells.length →
      ((PerceptronActor.react_to_store low range m s obsRef).2).get obsRef = s.get obsRef) ∧
    (∀ (low range : List ℝ) (layers : List (List (List ℝ))) (s : Store (List ℝ)) (obsRef : ℕ),
      obsRef < s.cells.length →
      ((NeuralNetActor.react_to_store low range layers s obsRef).2).get obsRef = s.get obsRef) := by
  constructor
  · intro low range m s obsRef hr
    have hne : s.cells.length ≠ obsRef := by omega
    show (((((s.alloc (s.get obsRef)).2.set (s.alloc (s.get obsRef)).1 _).set
        (s.alloc (s.get obsRef)).1 _).alloc _).2).get obsRef = s.get obsRef
    simp only [store_alloc_fst]
    rw [store_get_alloc, store_get_set_ne _ _ _ _ hne, store_get_set_ne _ _ _ _ hne,
      store_get_alloc _ _ _ hr]
    rw [store_set_length, store_set_length, store_alloc_length]
    omega
  · intro low range layers s obsRef hr
    have hne : s.cells.length ≠ obsRef := by omega
    show ((((s.alloc (s.get obsRef)).2.set (s.alloc (s.get obsRef)).1 _).set
        (s.alloc (s.get obsRef)).1 _)).get obsRef = s.get obsRef
    simp only [store_alloc_fst]
    rw [store_get_set_ne _ _ _ _ hne, store_get_set_ne _ _ _ _ hne,
      store_get_alloc _ _ _ hr]

/-- Witness for C9 at a concrete one-cell store. -/
theorem react_to_preserves_observation_witness :
    ((0 : ℕ) < (Store.mk [[(1 : ℚ), 2]]).cells.length ∧
      ((PerceptronActor.react_to_store [0, 0] [1, 1] [[1, 0]]
        (Store.mk [[(1 : ℚ), 2]]) 0).2).get 0 = (Store.mk [[(1 : ℚ), 2]]).get 0) ∧
    ((0 : ℕ) < (Store.mk [[(1 : ℝ), 2]]).cells.length ∧
      ((NeuralNetActor.react_to_store [0, 0] [1, 1] [[[1, 0]]]
        (Store.mk [[(1 : ℝ), 2]]) 0).2).get 0 = (Store.mk [[(1 : ℝ), 2]]).get 0) :=
  ⟨⟨by simp, react_to_preserves_observation.1 [0, 0] [1, 1] [[1, 0]] _ 0 (by simp)⟩,
   ⟨by simp, react_to_preserves_observation.2 [0, 0] [1, 1] [[[1, 0]]] _ 0 (by simp)⟩⟩

lemma allocList_cells {β : Type} : ∀ (vs : List β) (s : Store β),
    (s.allocList vs).2.cells = s.cells ++ vs := by
  intro vs
  induction vs with
  | nil => intro s; simp [Store.allocList]
  | cons v vs ih =>
    intro s
    show ((s.alloc v).2.allocList vs).2.cells = s.cells ++ (v :: vs)
    rw [ih (s.alloc v).2]
    show s.cells ++ [v] ++ vs = s.cells ++ (v :: vs)
    simp

lemma decode_layers_store_spec (g : List ℚ) :
    ∀ (refs : List ℕ) (start : ℕ) (s : Store (List (List ℚ))),
    (∀ r ∈ refs, r < s.cells.length) →
    (g.drop start).length
      = (refs.map (fun r => (mShape (s.get r)).1 * (mShape (s.get r)).2)).sum →
    ∃ nrefs s2 ext, GeneticNNActor.decode_layers_store g refs start s = some (nrefs, s2) ∧
      s2.cells = s.cells ++ ext ∧ ∀ r ∈ nrefs, s.cells.length ≤ r := by
  intro refs
  induction refs with
  | nil =>
    intro start s _ _
    exact ⟨[], s, [], rfl, by simp, by simp⟩
  | cons ref refs ih =>
    intro start s href hlen
    simp only [List.map_cons, List.sum_cons] at hlen
    have hsz : ((g.drop start).take ((mShape (s.get ref)).1 * (mShape (s.get ref)).2)).length
        = (mShape (s.get ref)).1 * (mShape (s.get ref)).2 := by
      rw [List.length_take, hlen]
      exact Nat.min_eq_left (by omega)
    obtain ⟨nl, hre, _, _, _⟩ := reshape2_some _ _ _ hsz
    have hstep : GeneticNNActor.decode_layers_store g (ref :: refs) start s
        = (reshape2 (mShape (s.get ref)).1 (mShape (s.get ref)).2
            ((g.drop start).take ((mShape (s.get ref)).1 * (mShape (s.get ref)).2))).bind
            (fun nl =>
              (GeneticNNActor.decode_layers_store g refs
                (start + (mShape (s.get ref)).1 * (mShape (s.get ref)).2) (s.alloc nl).2).map
                (fun q => ((s.alloc nl).1 :: q.1, q.2))) := rfl
    have hrefs2 : ∀ r ∈ refs, r < (s.alloc nl).2.cells.length := by
      intro r hr
      have h1 := href r (by simp [hr])
      rw [store_alloc_length]
      omega
    have hgets : ∀ r ∈ refs, (s.alloc nl).2.get r = s.get r :=
      fun r hr => store_get_alloc _ _ _ (href r (by simp [hr]))
    have hlen2 : (g.drop (start + (mShape (s.get ref)).1 * (mShape (s.get ref)).2)).length
        = (refs.map
            (fun r => (mShape ((s.alloc nl).2.get r)).1 * (mShape ((s.alloc nl).2.get r)).2)).sum := by
      have hmc : refs.map
            (fun r => (mShape ((s.alloc nl).2.get r)).1 * (mShape ((s.alloc nl).2.get r)).2)
          = refs.map (fun r => (mShape (s.get r)).1 * (mShape (s.get r)).2) :=
        List.map_congr_left (fun r hr => by rw [hgets r hr])
      rw [← List.drop_drop, List.length_drop, hlen, hmc]
      omega
    obtain ⟨nrefs, s2, ext, hdec, hcells, hge⟩ :=
      ih (start + (mShape (s.get ref)).1 * (mShape (s.get ref)).2) (s.alloc nl).2 hrefs2 hlen2
    refine ⟨(s.alloc nl).1 :: nrefs, s2, nl :: ext, ?_, ?_, ?_⟩
    · rw [hstep, hre, Option.some_bind, hdec, Option.map_some']
    · rw [hcells]
      show (s.cells ++ [nl]) ++ ext = s.cells ++ (nl :: ext)
      simp
    · intro r hr
      rcases List.mem_cons.mp hr with rfl | hr'
      · exact le_refl _
      · have h2 := hge r hr'
        rw [store_alloc_length] at h2
        omega

/-- Claim C8: `from_genome` on actor A returns a new actor instance (a fresh
reference, resp. all-fresh layer references) and leaves A's own weight
matrices — and hence A's `react_to` behavior — unchanged. -/
theorem from_genome_nonmutation :
    (∀ (s : Store (List (List ℚ))) (selfRef : ℕ) (genome : List ℚ) (fresh : List (List ℚ)),
      selfRef < s.cells.length →
      genome.length = (mShape (s.get selfRef)).1 * (mShape (s.get selfRef)).2 →
      ∃ paRef s2, GeneticPerceptronActor.from_genome_store s selfRef genome fresh
          = some (paRef, s2) ∧
        paRef ≠ selfRef ∧
        s2.get selfRef = s.get selfRef ∧
        ∀ (low range obs : List ℚ),
          PerceptronActor.react_to low range (s2.get selfRef) obs
            = PerceptronActor.react_to low range (s.get selfRef) obs) ∧
    (∀ (s : Store (List (List ℚ))) (selfRefs : List ℕ) (genome : List ℚ)
       (fresh : List (List (List ℚ))),
      (∀ r ∈ selfRefs, r < s.cells.length) →
      genome.length
        = (selfRefs.map (fun r => (mShape (s.get r)).1 * (mShape (s.get r)).2)).sum →
      ∃ newRefs s2, GeneticNNActor.from_genome_store s selfRefs genome fresh
          = some (newRefs, s2) ∧
        (∀ r ∈ newRefs, r ∉ selfRefs) ∧
        (∀ r ∈ selfRefs, s2.get r = s.get r) ∧
        selfRefs.map s2.get = selfRefs.map s.get) := by
  constructor
  · intro s selfRef genome fresh hr hlen
    have hget : (s.alloc fresh).2.get selfRef = s.get selfRef := store_get_alloc _ _ _ hr
    have hne : (s.alloc fresh).1 ≠ selfRef := by rw [store_alloc_fst]; omega
    obtain ⟨nl, hre, _, _, _⟩ :=
      reshape2_some (mShape (s.get selfRef)).1 (mShape (s.get selfRef)).2 genome hlen
    refine ⟨(s.alloc fresh).1,
      (s.alloc fresh).2.set (s.alloc fresh).1 (nl.map (fun row => row.map (fun x => 2 * x - 1))),
      ?_, ?_, ?_, ?_⟩
    · simp only [GeneticPerceptronActor.from_genome_store]
      rw [hget, hre, Option.map_some']
    · rw [store_alloc_fst]; omega
    · rw [store_get_set_ne _ _ _ _ hne, hget]
    · intro low range obs
      rw [store_get_set_ne _ _ _ _ hne, hget]
  · intro s selfRefs genome fresh href hlen
    have hs1 : ((s.allocList fresh).2).cells = s.cells ++ fresh := allocList_cells fresh s
    have href1 : ∀ r ∈ selfRefs, r < (s.allocList fresh).2.cells.length := by
      intro r hr
      rw [hs1, List.length_append]
      have h1 := href r hr
      omega
    have hget1 : ∀ r ∈ selfRefs, (s.allocList fresh).2.get r = s.get r :=
      fun r hr => store_get_of_cells_append _ _ _ hs1 r (href r hr)
    have hlen1 : ((genome.map (fun x => 2 * x - 1)).drop 0).length
        = (selfRefs.map (fun r =>
            (mShape ((s.allocList fresh).2.get r)).1
              * (mShape ((s.allocList fresh).2.get r)).2)).sum := by
      rw [List.drop_zero, List.length_map, hlen]
      exact (congrArg List.sum (List.map_congr_left (fun r hr => by rw [hget1 r hr]))).symm
    obtain ⟨nrefs, s2, ext, hdec, hcells, hge⟩ :=
      decode_layers_store_spec (genome.map (fun x => 2 * x - 1)) selfRefs 0
        (s.allocList fresh).2 href1 hlen1
    have hcells2 : s2.cells = s.cells ++ (fresh ++ ext) := by
      rw [hcells, hs1, List.append_assoc]
    have hgets2 : ∀ r ∈ selfRefs, s2.get r = s.get r :=
      fun r hr => store_get_of_cells_append _ _ _ hcells2 r (href r hr)
    refine ⟨nrefs, s2, hdec, ?_, hgets2, List.map_congr_left hgets2⟩
    intro r hrn hrs
    have h1 := hge r hrn
    rw [hs1, List.length_append] at h1
    have h2 := href r hrs
    omega

/-- Witness for C8 at a concrete one-cell store holding a 1×1 matrix. -/
theorem from_genome_nonmutation_witness :
    ((0 : ℕ) < (Store.mk [[[(1 : ℚ)]]]).cells.length ∧
      ([1/2] : List ℚ).length
        = (mShape ((Store.mk [[[(1 : ℚ)]]]).get 0)).1
          * (mShape ((Store.mk [[[(1 : ℚ)]]]).get 0)).2 ∧
      ∃ paRef s2, GeneticPerceptronActor.from_genome_store (Store.mk [[[(1 : ℚ)]]]) 0 [1/2] [[0]]
          = some (paRef, s2) ∧ paRef ≠ 0 ∧ s2.get 0 = (Store.mk [[[(1 : ℚ)]]]).get 0 ∧
        ∀ (low range obs : List ℚ),
          PerceptronActor.react_to low range (s2.get 0) obs
            = PerceptronActor.react_to low range ((Store.mk [[[(1 : ℚ)]]]).get 0) obs) ∧
    ((∀ r ∈ ([0] : List ℕ), r < (Store.mk [[[(1 : ℚ)]]]).cells.length) ∧
      ([1/2] : List ℚ).length = (([0] : List ℕ).map (fun r =>
        (mShape ((Store.mk [[[(1 : ℚ)]]]).get r)).1
          * (mShape ((Store.mk [[[(1 : ℚ)]]]).get r)).2)).sum ∧
      ∃ newRefs s2, GeneticNNActor.from_genome_store (Store.mk [[[(1 : ℚ)]]]) [0] [1/2] []
          = some (newRefs, s2) ∧ (∀ r ∈ newRefs, r ∉ ([0] : List ℕ)) ∧
        (∀ r ∈ ([0] : List ℕ), s2.get r = (Store.mk [[[(1 : ℚ)]]]).get r) ∧
        ([0] : List ℕ).map (Store.get s2) = ([0] : List ℕ).map (Store.get (Store.mk [[[(1 : ℚ)]]]))) :=
  ⟨⟨by simp, rfl, from_genome_nonmutation.1 (Store.mk [[[(1 : ℚ)]]]) 0 [1/2] [[0]] (by simp) rfl⟩,
   ⟨by simp, rfl, from_genome_nonmutation.2 (Store.mk [[[(1 : ℚ)]]]) [0] [1/2] [] (by simp) rfl⟩⟩
